import Mathlib

/-!
Verification development for the seg-flow mosaic stitching engine.

The Python source (`src/segflow/core.py`, `src/segflow/full_image/segmentation_image.py`)
is shallowly embedded below: pure functions over `ℕ`/`ℤ`/`ℚ`/`ℝ`, with Python's
floor-division and modulo rendered as `Int.ediv`/`Int.emod` (which agree with
Python for positive divisors), numpy rasters rendered as functions from
coordinates together with explicit dimensions, and Python exceptions rendered
via `Except`.
-/

namespace SegFlow

/-! ## Coordinator configuration (`SegFlow.__init__`, core.py lines 37-61)

The constructor accepts `tile_size`, `stride`, `average_weight`, `sum_weight`,
`min_pixels` but (per the source, lines 48-52) stores the literals `0.7`, `0.3`
and `5` for the last three rather than the caller-supplied arguments. -/

structure Config where
  tile_size : ℕ
  stride : ℕ
  average_weight : ℚ
  sum_weight : ℚ
  min_pixels : ℕ

def init (tile_size stride : ℕ) (average_weight sum_weight : ℚ) (min_pixels : ℕ) : Config :=
  { tile_size := tile_size
    stride := stride
    average_weight := 7/10
    sum_weight := 3/10
    min_pixels := 5 }

/-! ## Padding (`SegFlow.pad_image`, core.py lines 90-110)

Python's `%` and `//` on ints with a positive right operand coincide with
`Int.emod` and `Int.ediv`. -/

def pad_total (tile_size stride S : ℤ) : ℤ :=
  tile_size + (tile_size - (S - tile_size) % stride) % stride

def pad_top (tile_size stride S : ℤ) : ℤ :=
  pad_total tile_size stride S / 2

def pad_bottom (tile_size stride S : ℤ) : ℤ :=
  pad_total tile_size stride S - pad_top tile_size stride S

/-! ## Label rasters

A numpy integer raster is embedded as a total function from (row, col); every
operation below touches only coordinates inside explicitly given bounds. -/

abbrev LabelGrid : Type := ℕ → ℕ → ℤ

/-- Non-zero labels present in the `T × T` tile `g` (numpy
`unique(g)` with `0` removed). -/
def tile_labels (T : ℕ) (g : LabelGrid) : Finset ℤ :=
  ((Finset.range T ×ˢ Finset.range T).image (fun p => g p.1 p.2)).erase 0

/-- Whether the tile placed at `pos` covers mosaic pixel `(p, q)` with a
non-background label (used by `_calculate_overlaps`, core.py lines 314-334). -/
def tile_claims (T : ℕ) (tp : LabelGrid × (ℕ × ℕ)) (p q : ℕ) : Prop :=
  tp.2.1 ≤ p ∧ p < tp.2.1 + T ∧ tp.2.2 ≤ q ∧ q < tp.2.2 + T ∧
    0 < tp.1 (p - tp.2.1) (q - tp.2.2)

instance (T : ℕ) (tp : LabelGrid × (ℕ × ℕ)) (p q : ℕ) :
    Decidable (tile_claims T tp p q) := by
  unfold tile_claims
  infer_instance

/-! ## Overlap density map (`SegFlow._calculate_overlaps`, core.py lines 299-339)

Per tile: where the tile has a non-zero label and the raster is already
positive, increment; where the tile has a non-zero label and the raster is
still zero, set to exactly `1`; elsewhere leave unchanged. -/

def increment_region (T : ℕ) (o : LabelGrid) (tp : LabelGrid × (ℕ × ℕ)) : LabelGrid :=
  fun p q =>
    if tile_claims T tp p q then
      (if 0 < o p q then o p q + 1 else 1)
    else o p q

def calculate_overlaps (T : ℕ) (tiles : List (LabelGrid × (ℕ × ℕ))) : LabelGrid :=
  tiles.foldl (increment_region T) (fun _ _ => 0)

/-! ## Per-instance coverage scorer (`SegFlow._calculate_tile_overlaps`,
core.py lines 341-398)

For each tile, each non-zero label with at least `min_pixels` pixels gets
`w1 * mean(overlap over its pixels) + w2 * sum(overlap over its pixels)`;
labels below the threshold get no entry.  The per-tile dictionary is embedded
as a partial map `ℤ → Option ℚ`. -/

def label_mask (T : ℕ) (seg : LabelGrid) (label : ℤ) : Finset (ℕ × ℕ) :=
  (Finset.range T ×ˢ Finset.range T).filter (fun p => seg p.1 p.2 = label)

def num_pixels (T : ℕ) (seg : LabelGrid) (label : ℤ) : ℕ :=
  (label_mask T seg label).card

def sum_overlap (T : ℕ) (seg overlap : LabelGrid) (label : ℤ) : ℚ :=
  Finset.sum (label_mask T seg label) (fun p => (overlap p.1 p.2 : ℚ))

def avg_overlap (T : ℕ) (seg overlap : LabelGrid) (label : ℤ) : ℚ :=
  sum_overlap T seg overlap label / (num_pixels T seg label : ℚ)

def coverage_score (w1 w2 : ℚ) (T : ℕ) (seg overlap : LabelGrid) (label : ℤ) : ℚ :=
  w1 * avg_overlap T seg overlap label + w2 * sum_overlap T seg overlap label

def tile_index_coverage (w1 w2 : ℚ) (min_pixels T : ℕ) (seg overlap : LabelGrid) :
    ℤ → Option ℚ :=
  fun label =>
    if label ∈ tile_labels T seg ∧ min_pixels ≤ num_pixels T seg label then
      some (coverage_score w1 w2 T seg overlap label)
    else none

/-! ## Recombiner (`SegFlow.ingest_tile_segmentation`, core.py lines 192-227)

The accumulating mosaic state: a label raster and a score raster, both
starting at zero.  One tile's ingestion broadcasts its per-label scores onto
its pixels and overwrites exactly where
`tile_score > existing_score ∧ tile_label > 0`. -/

structure Mosaic where
  mask : LabelGrid
  score : ℕ → ℕ → ℚ

def mosaic0 : Mosaic := ⟨fun _ _ => 0, fun _ _ => 0⟩

/-- Broadcast per-pixel score of a tile given its coverage dictionary
(core.py lines 207-209): pixels whose label has no entry stay `0.0`. -/
def tile_score_map (cov : ℤ → Option ℚ) (seg : LabelGrid) (i j : ℕ) : ℚ :=
  (cov (seg i j)).getD 0

/-- Overwrite condition at mosaic pixel `(p, q)` for the tile at `pos`
(core.py line 215), including membership in the tile's region. -/
def overwrites (T : ℕ) (m : Mosaic) (seg : LabelGrid) (pos : ℕ × ℕ)
    (cov : ℤ → Option ℚ) (p q : ℕ) : Prop :=
  pos.1 ≤ p ∧ p < pos.1 + T ∧ pos.2 ≤ q ∧ q < pos.2 + T ∧
    m.score p q < tile_score_map cov seg (p - pos.1) (q - pos.2) ∧
    0 < seg (p - pos.1) (q - pos.2)

instance (T : ℕ) (m : Mosaic) (seg : LabelGrid) (pos : ℕ × ℕ)
    (cov : ℤ → Option ℚ) (p q : ℕ) : Decidable (overwrites T m seg pos cov p q) := by
  unfold overwrites
  infer_instance

def ingest_tile (T : ℕ) (m : Mosaic) (seg : LabelGrid) (pos : ℕ × ℕ)
    (cov : ℤ → Option ℚ) : Mosaic :=
  { mask := fun p q =>
      if overwrites T m seg pos cov p q then seg (p - pos.1) (q - pos.2)
      else m.mask p q
    score := fun p q =>
      if overwrites T m seg pos cov p q then
        tile_score_map cov seg (p - pos.1) (q - pos.2)
      else m.score p q }

def ingest_tiles (T : ℕ) (m : Mosaic)
    (tiles : List (LabelGrid × (ℕ × ℕ) × (ℤ → Option ℚ))) : Mosaic :=
  tiles.foldl (fun acc t => ingest_tile T acc t.1 t.2.1 t.2.2) m

/-! Concrete one-pixel tiles used for the tie-break scenarios: two tiles at
the same position claiming the same pixel with exactly equal scores. -/

def tieTileA : LabelGrid := fun _ _ => 1

def tieTileB : LabelGrid := fun _ _ => 2

def tieCovA : ℤ → Option ℚ := fun l => if l = 1 then some 1 else none

def tieCovB : ℤ → Option ℚ := fun l => if l = 2 then some 1 else none

/-- Mosaic state after the first tie-demo tile claimed pixel `(0,0)`. -/
def tieMosaic1 : Mosaic := ingest_tile 1 mosaic0 tieTileA (0, 0) tieCovA

/-- Two concrete 2×2 tiles used to exercise the overlap density map. -/
def demoTiles : List (LabelGrid × (ℕ × ℕ)) := [(tieTileA, (0, 0)), (tieTileB, (1, 1))]

/-- Concrete 2×2 tile whose label 1 covers pixels (0,0), (0,1), (1,0). -/
def segW : LabelGrid := fun i j => if i = 0 ∨ j = 0 then 1 else 0

/-- Concrete density values over the same 2×2 tile. -/
def ovW : LabelGrid := fun i j => (i : ℤ) + (j : ℤ) + 1

/-! ## Confidence reduction (`SegFlow._calculate_high_confidence_tiles`,
core.py lines 245-297)

Per tile: collect the non-zero labels of the central region (margin
`tile_size / 8` on every side), zero out pixels of labels absent there,
relabel survivors by adding the running `max_label`, and update `max_label`
to the adjusted tile's array maximum when any label survived. -/

def zeroGrid : LabelGrid := fun _ _ => 0

/-- Non-zero labels present in the high-confidence central region
(core.py lines 271-273). -/
def hc_labels (T margin : ℕ) (seg : LabelGrid) : Finset ℤ :=
  ((Finset.Ico margin (T - margin) ×ˢ Finset.Ico margin (T - margin)).image
    (fun p => seg p.1 p.2)).erase 0

/-- Zero out labels not present in the high-confidence region
(core.py lines 276-277). -/
def cleaned_tile (T margin : ℕ) (seg : LabelGrid) : LabelGrid :=
  fun p q => if seg p q ∈ hc_labels T margin seg then seg p q else 0

/-- Relabel surviving labels by adding `max_label` (core.py lines 280-288):
pixels of surviving labels get `label + max_label`, the rest stay 0. -/
def adjusted_tile (T margin : ℕ) (max_label : ℤ) (seg : LabelGrid) : LabelGrid :=
  fun p q =>
    if cleaned_tile T margin seg p q ∈ tile_labels T (cleaned_tile T margin seg) then
      cleaned_tile T margin seg p q + max_label
    else 0

/-- numpy `.max()` over the `T × T` array. -/
def array_max (T : ℕ) (g : LabelGrid) : ℤ :=
  (((Finset.range T ×ˢ Finset.range T).image (fun p => g p.1 p.2)).max).unbot' 0

/-- One step of confidence reduction: the adjusted tile, and the updated
running `max_label` (core.py lines 291-292: updated only when some label
survived). -/
def reduce_tile (T margin : ℕ) (max_label : ℤ) (seg : LabelGrid) : LabelGrid × ℤ :=
  (adjusted_tile T margin max_label seg,
    if (tile_labels T (cleaned_tile T margin seg)).Nonempty then
      array_max T (adjusted_tile T margin max_label seg)
    else max_label)

def calculate_high_confidence_tiles (T : ℕ) (max_label : ℤ) :
    List LabelGrid → List LabelGrid × ℤ
  | [] => ([], max_label)
  | seg :: rest =>
    ((reduce_tile T (T / 8) max_label seg).1 ::
        (calculate_high_confidence_tiles T (reduce_tile T (T / 8) max_label seg).2 rest).1,
      (calculate_high_confidence_tiles T (reduce_tile T (T / 8) max_label seg).2 rest).2)

/-- Concrete tile list used to exercise confidence reduction: two identical
all-ones tiles. -/
def segsW : List LabelGrid := [tieTileA, tieTileA]

/-! ## Cropper (`SegFlow._crop_padded`, core.py lines 401-420)

numpy basic 2D slicing is embedded with Python's endpoint rules: a negative
stop counts from the end of the axis (so a stop of `-0 = 0` yields an empty
axis — the footgun the spec warns about), a non-negative stop is clamped to
the axis length. -/

structure Raster where
  H : ℕ
  W : ℕ
  pix : ℕ → ℕ → ℤ

def py_stop (len : ℕ) (stop : ℤ) : ℕ :=
  if stop < 0 then (stop + len).toNat else min stop.toNat len

def py_start (len : ℕ) (start : ℕ) : ℕ := min start len

/-- 2D basic slice `r[rs:rstop, cs:cstop]` with non-negative starts. -/
def py_slice (r : Raster) (rs : ℕ) (rstop : ℤ) (cs : ℕ) (cstop : ℤ) : Raster :=
  { H := py_stop r.H rstop - py_start r.H rs
    W := py_stop r.W cstop - py_start r.W cs
    pix := fun i j => r.pix (py_start r.H rs + i) (py_start r.W cs + j) }

/-- `_crop_padded`: the unconditional slice with negative stops (line 410),
then the `pad_bottom == 0` special case re-slicing the *original* raster
(lines 413-414), then the `pad_right == 0` special case re-slicing the
*current* result by `[:, pad_left:]` (lines 415-416). -/
def crop_padded (pt pb pl pr : ℕ) (img : Raster) : Raster :=
  let c1 := py_slice img pt (-(pb : ℤ)) pl (-(pr : ℤ))
  let c2 := if pb = 0 then py_slice img pt (img.H : ℤ) pl (-(pr : ℤ)) else c1
  if pr = 0 then py_slice c2 0 (c2.H : ℤ) pl (c2.W : ℤ) else c2

/-- Concrete 4×4 padded raster for exercising the cropper. -/
def img9 : Raster := ⟨4, 4, fun i j => (4 * i + j : ℤ)⟩

/-! ## Region area (`SegmentationImage._calculate_area`,
full_image/segmentation_image.py lines 293-325)

`regionprops` yields one region per positive label present in the raster.
The loop body evaluates `np.sum(labeled_image == label)` but neither
`labeled_image` nor `label` is a defined name in that scope, so the first
iteration whose region has a non-zero label raises `NameError`; an empty
region list returns the empty mapping. -/

def region_labels (H W : ℕ) (img : LabelGrid) : Finset ℤ :=
  ((Finset.range H ×ˢ Finset.range W).image (fun p => img p.1 p.2)).filter
    (fun l => 0 < l)

def area_loop : List ℤ → Except String (List (ℤ × ℤ))
  | [] => Except.ok []
  | label :: rest => if label ≠ 0 then Except.error "NameError" else area_loop rest

def calculate_area (H W : ℕ) (img : LabelGrid) : Except String (List (ℤ × ℤ)) :=
  area_loop ((region_labels H W img).sort (fun a b => a ≤ b))

/-! ## Continuous-tile blending (`SegFlow.combine_continuous_tiles`,
core.py lines 145-168, and `_extract_tiles`, lines 422-447)

`np.hanning(M)` is `0.5 - 0.5 * cos(2πk/(M-1))` for `k = 0, …, M-1`
(`[1.0]` for `M = 1`); the 2D window is the outer product normalized by its
array maximum.  Each tile is multiplied by the window and accumulated, the
window itself is accumulated into a weight raster, zero weight cells are set
to 1, and the accumulator is divided elementwise by the weights. -/

noncomputable def hanning (M : ℕ) (k : ℕ) : ℝ :=
  if M = 1 then 1 else 1/2 - 1/2 * Real.cos (2 * Real.pi * k / ((M : ℝ) - 1))

noncomputable def window_max (T : ℕ) : ℝ :=
  ((List.range T).map (fun i =>
    ((List.range T).map (fun j => hanning T i * hanning T j)).foldr max 0)).foldr max 0

noncomputable def window (T : ℕ) (i j : ℕ) : ℝ :=
  hanning T i * hanning T j / window_max T

/-- Python `range(0, size - T + 1, stride)` from `_extract_tiles`. -/
def range_positions (size T stride : ℕ) : List ℕ :=
  (List.range ((size + 1 - T + stride - 1) / stride)).map (fun k => k * stride)

/-- Row-major tile positions over an `H × W` padded extent. -/
def positions2d (H W T stride : ℕ) : List (ℕ × ℕ) :=
  (range_positions H T stride).flatMap
    (fun y => (range_positions W T stride).map (fun x => (y, x)))

/-- Accumulated window weight at padded pixel `(p, q)` (core.py line 162). -/
noncomputable def weight_at (T : ℕ) (positions : List (ℕ × ℕ)) (p q : ℕ) : ℝ :=
  (positions.map (fun pos =>
    if pos.1 ≤ p ∧ p < pos.1 + T ∧ pos.2 ≤ q ∧ q < pos.2 + T then
      window T (p - pos.1) (q - pos.2)
    else 0)).sum

/-- Accumulated windowed tile values at padded pixel `(p, q)` (line 161). -/
noncomputable def reconstructed_at (T : ℕ)
    (tiles : List ((ℕ → ℕ → ℝ) × (ℕ × ℕ))) (p q : ℕ) : ℝ :=
  (tiles.map (fun tp =>
    if tp.2.1 ≤ p ∧ p < tp.2.1 + T ∧ tp.2.2 ≤ q ∧ q < tp.2.2 + T then
      tp.1 (p - tp.2.1) (q - tp.2.2) * window T (p - tp.2.1) (q - tp.2.2)
    else 0)).sum

/-- Final blended value: zero-weight cells get divisor 1 (lines 165-167). -/
noncomputable def combined_at (T : ℕ)
    (tiles : List ((ℕ → ℕ → ℝ) × (ℕ × ℕ))) (p q : ℕ) : ℝ :=
  reconstructed_at T tiles p q /
    (if weight_at T (tiles.map (fun tp => tp.2)) p q = 0 then 1
     else weight_at T (tiles.map (fun tp => tp.2)) p q)

/-- The tiles extracted from a constant-valued padded image. -/
def const_tiles (c : ℝ) (positions : List (ℕ × ℕ)) :
    List ((ℕ → ℕ → ℝ) × (ℕ × ℕ)) :=
  positions.map (fun pos => (fun _ _ => c, pos))

/-- Total pad amount as a natural number (it is always non-negative). -/
def pad_total_n (T stride S : ℕ) : ℕ := (pad_total T stride S).toNat

/-- Top/left pad amount as a natural number. -/
def pad_top_n (T stride S : ℕ) : ℕ := (pad_top T stride S).toNat

/-- Full constant-image blending pipeline: pad a constant `S × S` image,
extract the tile grid, blend the (constant) tiles, read cropped pixel
`(i, j)` (crop offset `pad_top`/`pad_left` from `_crop_padded`). -/
noncomputable def combine_const_cropped (S T stride : ℕ) (c : ℝ) (i j : ℕ) : ℝ :=
  combined_at T
    (const_tiles c (positions2d (S + pad_total_n T stride S)
      (S + pad_total_n T stride S) T stride))
    (pad_top_n T stride S + i) (pad_top_n T stride S + j)

end SegFlow

/-! ## Theorems -/

/-- C1 (code bug evaluation). Constructing the coordinator with
`average_weight = 1/2`, `sum_weight = 1/2`, `min_pixels = 10` nevertheless
stores `average_weight = 7/10`, `sum_weight = 3/10`, `min_pixels = 5`:
the caller-supplied scoring parameters are ignored by `SegFlow.__init__`. -/
theorem c1_init_ignores_caller_arguments :
    (SegFlow.init 512 256 (1/2) (1/2) 10).average_weight = 7/10 ∧
    (SegFlow.init 512 256 (1/2) (1/2) 10).sum_weight = 3/10 ∧
    (SegFlow.init 512 256 (1/2) (1/2) 10).min_pixels = 5 ∧
    (7/10 : ℚ) ≠ 1/2 ∧ (3/10 : ℚ) ≠ 1/2 ∧ (5 : ℕ) ≠ 10 := by
  refine ⟨rfl, rfl, rfl, by norm_num, by norm_num, by decide⟩

/-- C7 (counterexample). With `tile_size = 5`, `stride = 3`, `S = 7` (all
positive, pads computed by the padding formula of `pad_image`), the claimed
invariant `(pad_top + pad_bottom + S - tile_size) % stride = 0` fails: the
left side evaluates to `1`. -/
theorem c7_pad_invariant_fails :
    (SegFlow.pad_top 5 3 7 + SegFlow.pad_bottom 5 3 7 + 7 - 5) % 3 = 1 ∧
    (1 : ℤ) ≠ 0 := by
  constructor
  · decide
  · decide

/-- C7 (amended). For positive `S`, `tile_size`, `stride`, *provided `stride`
divides `2 * tile_size`* (as with the defaults 512/256), the pad amounts
computed by `pad_image` satisfy
`(pad_top + pad_bottom + S - tile_size) % stride = 0`, the total pad equals
`tile_size + ((tile_size - (S - tile_size) % stride) % stride)`, and the
padded dimension `S + pad_total` is at least `tile_size`, so the stride grid
starting at 0 ends flush at the padded edge. -/
theorem c7_pad_invariant (tile_size stride S : ℤ)
    (hts : 0 < tile_size) (hst : 0 < stride) (hS : 0 < S)
    (hdvd : stride ∣ 2 * tile_size) :
    (SegFlow.pad_top tile_size stride S + SegFlow.pad_bottom tile_size stride S
        + S - tile_size) % stride = 0 ∧
    SegFlow.pad_top tile_size stride S + SegFlow.pad_bottom tile_size stride S
        = tile_size + (tile_size - (S - tile_size) % stride) % stride ∧
    tile_size ≤ S + SegFlow.pad_total tile_size stride S := by
  have hsum : SegFlow.pad_top tile_size stride S + SegFlow.pad_bottom tile_size stride S
      = SegFlow.pad_total tile_size stride S := by
    unfold SegFlow.pad_bottom
    ring
  refine ⟨?_, ?_, ?_⟩
  · rw [hsum]
    obtain ⟨c, hc⟩ := hdvd
    apply Int.emod_eq_zero_of_dvd
    refine ⟨c + (S - tile_size) / stride
      - (tile_size - (S - tile_size) % stride) / stride, ?_⟩
    unfold SegFlow.pad_total
    rw [Int.emod_def (tile_size - (S - tile_size) % stride) stride,
      Int.emod_def (S - tile_size) stride]
    linear_combination hc
  · rw [hsum]
    rfl
  · have h1 : 0 ≤ (tile_size - (S - tile_size) % stride) % stride :=
      Int.emod_nonneg _ (ne_of_gt hst)
    unfold SegFlow.pad_total
    omega

/-- C7 amended, witness: the default configuration `tile_size = 512`,
`stride = 256` with image size `S = 600` satisfies all hypotheses and the
invariant. -/
theorem c7_pad_invariant_witness :
    (0 : ℤ) < 512 ∧ (0 : ℤ) < 256 ∧ (0 : ℤ) < 600 ∧ (256 : ℤ) ∣ 2 * 512 ∧
    ((SegFlow.pad_top 512 256 600 + SegFlow.pad_bottom 512 256 600
        + 600 - 512) % 256 = 0 ∧
      SegFlow.pad_top 512 256 600 + SegFlow.pad_bottom 512 256 600
        = 512 + ((512 : ℤ) - ((600 : ℤ) - 512) % 256) % 256 ∧
      (512 : ℤ) ≤ 600 + SegFlow.pad_total 512 256 600) :=
  ⟨by decide, by decide, by decide, ⟨4, by norm_num⟩,
    c7_pad_invariant 512 256 600 (by decide) (by decide) (by decide)
      ⟨4, by norm_num⟩⟩

/-! ### Helper lemmas (shared) -/

theorem mem_tile_labels {T : ℕ} {g : SegFlow.LabelGrid} {label : ℤ} :
    label ∈ SegFlow.tile_labels T g ↔
      label ≠ 0 ∧ ∃ a b, a < T ∧ b < T ∧ g a b = label := by
  unfold SegFlow.tile_labels
  simp only [Finset.mem_erase, Finset.mem_image, Finset.mem_product,
    Finset.mem_range, Prod.exists]
  constructor
  · rintro ⟨h0, a, b, ⟨ha, hb⟩, hg⟩
    exact ⟨h0, a, b, ha, hb, hg⟩
  · rintro ⟨h0, a, b, ha, hb, hg⟩
    exact ⟨h0, a, b, ⟨ha, hb⟩, hg⟩

theorem overlaps_foldl_count (T : ℕ) (tiles : List (SegFlow.LabelGrid × (ℕ × ℕ)))
    (o : SegFlow.LabelGrid) (p q : ℕ) (h : 0 ≤ o p q) :
    tiles.foldl (SegFlow.increment_region T) o p q
      = o p q + (tiles.countP (fun tp => decide (SegFlow.tile_claims T tp p q)) : ℤ) := by
  induction tiles generalizing o with
  | nil => simp
  | cons t rest ih =>
      rw [List.foldl_cons, List.countP_cons]
      have hstep : SegFlow.increment_region T o t p q
          = o p q + (if SegFlow.tile_claims T t p q then 1 else 0) := by
        unfold SegFlow.increment_region
        split_ifs <;> omega
      have h2 : 0 ≤ SegFlow.increment_region T o t p q := by
        rw [hstep]; split_ifs <;> omega
      rw [ih _ h2, hstep]
      by_cases hc : SegFlow.tile_claims T t p q
      · simp [hc]
        push_cast
        ring
      · simp [hc]

/-! ### Claim theorems -/

/-- C6. After `_calculate_overlaps` processes all confidence tiles, every
pixel's value equals the number of tiles whose region covers that pixel with
a non-background label; the pixels with value at least 1 are exactly the
union of the tiles' footprints; a pixel claimed by no tile is still 0. -/
theorem c6_overlap_density (T : ℕ) (tiles : List (SegFlow.LabelGrid × (ℕ × ℕ)))
    (p q : ℕ) :
    SegFlow.calculate_overlaps T tiles p q
        = (tiles.countP (fun tp => decide (SegFlow.tile_claims T tp p q)) : ℤ) ∧
    (1 ≤ SegFlow.calculate_overlaps T tiles p q ↔
      ∃ tp ∈ tiles, SegFlow.tile_claims T tp p q) ∧
    ((∀ tp ∈ tiles, ¬ SegFlow.tile_claims T tp p q) →
      SegFlow.calculate_overlaps T tiles p q = 0) := by
  have hcount : SegFlow.calculate_overlaps T tiles p q
      = (tiles.countP (fun tp => decide (SegFlow.tile_claims T tp p q)) : ℤ) := by
    have := overlaps_foldl_count T tiles (fun _ _ => 0) p q le_rfl
    simpa [SegFlow.calculate_overlaps] using this
  refine ⟨hcount, ?_, ?_⟩
  · rw [hcount]
    rw [Int.le_iff_lt_or_eq]
    constructor
    · intro hpos
      have : 0 < tiles.countP (fun tp => decide (SegFlow.tile_claims T tp p q)) := by
        omega
      rw [List.countP_pos] at this
      obtain ⟨tp, htp, hdec⟩ := this
      exact ⟨tp, htp, of_decide_eq_true hdec⟩
    · rintro ⟨tp, htp, hclaims⟩
      have : 0 < tiles.countP (fun tp => decide (SegFlow.tile_claims T tp p q)) := by
        rw [List.countP_pos]
        exact ⟨tp, htp, decide_eq_true hclaims⟩
      omega
  · intro hnone
    rw [hcount]
    have : tiles.countP (fun tp => decide (SegFlow.tile_claims T tp p q)) = 0 := by
      rw [List.countP_eq_zero]
      intro tp htp
      simpa using hnone tp htp
    rw [this]
    rfl

/-- C6, witness: for the two concrete demo tiles no tile claims pixel
`(5, 5)`, and the density raster is 0 there. -/
theorem c6_overlap_density_witness :
    SegFlow.calculate_overlaps 2 SegFlow.demoTiles 5 5 = 0 :=
  (c6_overlap_density 2 SegFlow.demoTiles 5 5).2.2 (by decide)

/-- C2. In any recombination step, if the tile's broadcast per-pixel score at
a pixel equals the score already recorded in the mosaic there, that tile
leaves both the mosaic label and score at that pixel unchanged; and any
change at a pixel can only happen where the tile's score is strictly greater
than the recorded score and the tile pixel is non-background. -/
theorem c2_tie_keeps_earlier_claim (T : ℕ) (m : SegFlow.Mosaic)
    (seg : SegFlow.LabelGrid) (pos : ℕ × ℕ) (cov : ℤ → Option ℚ) (p q : ℕ) :
    (SegFlow.tile_score_map cov seg (p - pos.1) (q - pos.2) = m.score p q →
      (SegFlow.ingest_tile T m seg pos cov).mask p q = m.mask p q ∧
      (SegFlow.ingest_tile T m seg pos cov).score p q = m.score p q) ∧
    (((SegFlow.ingest_tile T m seg pos cov).mask p q ≠ m.mask p q ∨
        (SegFlow.ingest_tile T m seg pos cov).score p q ≠ m.score p q) →
      m.score p q < SegFlow.tile_score_map cov seg (p - pos.1) (q - pos.2) ∧
      0 < seg (p - pos.1) (q - pos.2)) := by
  constructor
  · intro htie
    have hno : ¬ SegFlow.overwrites T m seg pos cov p q := by
      intro h
      have := h.2.2.2.2.1
      rw [htie] at this
      exact lt_irrefl _ this
    simp [SegFlow.ingest_tile, hno]
  · intro hchanged
    by_cases h : SegFlow.overwrites T m seg pos cov p q
    · exact ⟨h.2.2.2.2.1, h.2.2.2.2.2⟩
    · exfalso
      rcases hchanged with hm | hs
      · exact hm (by simp [SegFlow.ingest_tile, h])
      · exact hs (by simp [SegFlow.ingest_tile, h])

/-- C2, witness: after the first demo tile claims pixel `(0,0)` with score 1,
the second demo tile's broadcast score there is also exactly 1, and its
ingestion leaves the mosaic label and score at `(0,0)` unchanged. -/
theorem c2_tie_keeps_earlier_claim_witness :
    (SegFlow.ingest_tile 1 SegFlow.tieMosaic1 SegFlow.tieTileB (0, 0)
        SegFlow.tieCovB).mask 0 0 = SegFlow.tieMosaic1.mask 0 0 ∧
    (SegFlow.ingest_tile 1 SegFlow.tieMosaic1 SegFlow.tieTileB (0, 0)
        SegFlow.tieCovB).score 0 0 = SegFlow.tieMosaic1.score 0 0 :=
  (c2_tie_keeps_earlier_claim 1 SegFlow.tieMosaic1 SegFlow.tieTileB (0, 0)
    SegFlow.tieCovB 0 0).1 (by decide)

/-- C3 (counterexample). Two one-pixel tiles both claim pixel `(0,0)` with
exactly equal broadcast scores (both 1); the claim predicts the later tile's
label 2 ends up in the mosaic, but running the Recombiner leaves the earlier
tile's label 1 there. -/
theorem c3_tie_later_tile_does_not_overwrite :
    SegFlow.tile_score_map SegFlow.tieCovB SegFlow.tieTileB 0 0
        = SegFlow.tieMosaic1.score 0 0 ∧
    (SegFlow.ingest_tiles 1 SegFlow.mosaic0
        [(SegFlow.tieTileA, (0, 0), SegFlow.tieCovA),
         (SegFlow.tieTileB, (0, 0), SegFlow.tieCovB)]).mask 0 0 = 1 ∧
    (1 : ℤ) ≠ 2 := by
  refine ⟨by decide, by decide, by decide⟩

/-- C3 (amended). For every pair of tiles in iteration order that both claim
the same pixel with exactly equal coverage scores, the later tile does *not*
overwrite the earlier tile's label at that pixel: the label recorded before
the later tile's ingestion persists through it. -/
theorem c3_amended_tie_preserves_earlier_label (T : ℕ) (m : SegFlow.Mosaic)
    (seg : SegFlow.LabelGrid) (pos : ℕ × ℕ) (cov : ℤ → Option ℚ) (p q : ℕ)
    (htie : SegFlow.tile_score_map cov seg (p - pos.1) (q - pos.2) = m.score p q) :
    (SegFlow.ingest_tile T m seg pos cov).mask p q = m.mask p q := by
  have hno : ¬ SegFlow.overwrites T m seg pos cov p q := by
    intro h
    have := h.2.2.2.2.1
    rw [htie] at this
    exact lt_irrefl _ this
  simp [SegFlow.ingest_tile, hno]

/-- C3 amended, witness: the concrete tied second tile leaves pixel `(0,0)`
carrying the first tile's label. -/
theorem c3_amended_tie_preserves_earlier_label_witness :
    (SegFlow.ingest_tile 1 SegFlow.tieMosaic1 SegFlow.tieTileB (0, 0)
        SegFlow.tieCovB).mask 0 0 = SegFlow.tieMosaic1.mask 0 0 :=
  c3_amended_tie_preserves_earlier_label 1 SegFlow.tieMosaic1 SegFlow.tieTileB
    (0, 0) SegFlow.tieCovB 0 0 (by decide)

/-- C5. For a confidence tile and its aligned density sub-raster, the
per-tile coverage dictionary has an entry for a non-background label exactly
when that label's pixel count reaches `min_pixels`; the entry equals
`w1 * mean(density over the label's pixels) + w2 * sum(density over the
label's pixels)`; below-threshold labels have no entry. -/
theorem c5_coverage_entries (w1 w2 : ℚ) (min_pixels T : ℕ)
    (seg overlap : SegFlow.LabelGrid) (label : ℤ)
    (hmp : 1 ≤ min_pixels) (hl : label ≠ 0) :
    ((SegFlow.tile_index_coverage w1 w2 min_pixels T seg overlap label).isSome
        ↔ min_pixels ≤ SegFlow.num_pixels T seg label) ∧
    (min_pixels ≤ SegFlow.num_pixels T seg label →
      SegFlow.tile_index_coverage w1 w2 min_pixels T seg overlap label
        = some (w1 * SegFlow.avg_overlap T seg overlap label
            + w2 * SegFlow.sum_overlap T seg overlap label)) ∧
    (SegFlow.num_pixels T seg label < min_pixels →
      SegFlow.tile_index_coverage w1 w2 min_pixels T seg overlap label = none) := by
  have hmem : min_pixels ≤ SegFlow.num_pixels T seg label →
      label ∈ SegFlow.tile_labels T seg := by
    intro hge
    have hpos : 0 < (SegFlow.label_mask T seg label).card := by
      unfold SegFlow.num_pixels at hge
      omega
    rw [Finset.card_pos] at hpos
    obtain ⟨⟨a, b⟩, hab⟩ := hpos
    rw [SegFlow.label_mask, Finset.mem_filter, Finset.mem_product] at hab
    rw [mem_tile_labels]
    exact ⟨hl, a, b, by simpa using hab.1.1, by simpa using hab.1.2, hab.2⟩
  refine ⟨?_, ?_, ?_⟩
  · constructor
    · intro hsome
      unfold SegFlow.tile_index_coverage at hsome
      by_cases hcond : label ∈ SegFlow.tile_labels T seg ∧
          min_pixels ≤ SegFlow.num_pixels T seg label
      · exact hcond.2
      · rw [if_neg hcond] at hsome
        simp at hsome
    · intro hge
      unfold SegFlow.tile_index_coverage
      rw [if_pos ⟨hmem hge, hge⟩]
      rfl
  · intro hge
    unfold SegFlow.tile_index_coverage
    rw [if_pos ⟨hmem hge, hge⟩]
    rfl
  · intro hlt
    unfold SegFlow.tile_index_coverage
    rw [if_neg]
    intro hcond
    omega

/-- C5, witness: a concrete 2×2 tile whose label 1 covers three pixels with
density values 1, 2, 2; with `min_pixels = 2` the entry exists and equals
`w1 * (5/3) + w2 * 5` for `w1 = 7/10`, `w2 = 3/10`. -/
theorem c5_coverage_entries_witness :
    (1 ≤ 2 ∧ (1 : ℤ) ≠ 0) ∧
    SegFlow.tile_index_coverage (7/10) (3/10) 2 2 SegFlow.segW SegFlow.ovW 1
      = some ((7/10) * SegFlow.avg_overlap 2 SegFlow.segW SegFlow.ovW 1
          + (3/10) * SegFlow.sum_overlap 2 SegFlow.segW SegFlow.ovW 1) :=
  ⟨⟨by decide, by decide⟩,
    (c5_coverage_entries (7/10) (3/10) 2 2 SegFlow.segW SegFlow.ovW 1
      (by decide) (by decide)).2.1 (by decide)⟩

/-! ### Confidence reduction lemmas -/

theorem tile_labels_zeroGrid (T : ℕ) : SegFlow.tile_labels T SegFlow.zeroGrid = ∅ := by
  ext l
  simp only [Finset.not_mem_empty, iff_false]
  rw [mem_tile_labels]
  rintro ⟨h0, a, b, ha, hb, hg⟩
  exact h0 (by simpa [SegFlow.zeroGrid] using hg.symm)

theorem le_array_max {T : ℕ} (g : SegFlow.LabelGrid) {a b : ℕ}
    (ha : a < T) (hb : b < T) : g a b ≤ SegFlow.array_max T g := by
  have hmem : g a b ∈ (Finset.range T ×ˢ Finset.range T).image (fun p => g p.1 p.2) :=
    Finset.mem_image.mpr ⟨(a, b),
      Finset.mem_product.mpr ⟨Finset.mem_range.mpr ha, Finset.mem_range.mpr hb⟩, rfl⟩
  obtain ⟨M, hM⟩ := Finset.max_of_mem hmem
  have hle := Finset.le_max_of_eq hmem hM
  unfold SegFlow.array_max
  rw [hM]
  simpa using hle

theorem cleaned_tile_pos {T margin : ℕ} {seg : SegFlow.LabelGrid}
    (hseg : ∀ p q, 0 ≤ seg p q) (p q : ℕ)
    (h : SegFlow.cleaned_tile T margin seg p q ≠ 0) :
    1 ≤ SegFlow.cleaned_tile T margin seg p q := by
  unfold SegFlow.cleaned_tile at h ⊢
  split_ifs at h ⊢ with hc
  · have := hseg p q
    omega
  · omega

theorem reduce_tile_label_bounds (T margin : ℕ) (m : ℤ) (seg : SegFlow.LabelGrid)
    (hseg : ∀ p q, 0 ≤ seg p q) {l : ℤ}
    (hl : l ∈ SegFlow.tile_labels T (SegFlow.reduce_tile T margin m seg).1) :
    m < l ∧ l ≤ (SegFlow.reduce_tile T margin m seg).2 := by
  rw [mem_tile_labels] at hl
  obtain ⟨h0, a, b, ha, hb, hg⟩ := hl
  have hg2 : SegFlow.adjusted_tile T margin m seg a b = l := hg
  by_cases hc : SegFlow.cleaned_tile T margin seg a b
      ∈ SegFlow.tile_labels T (SegFlow.cleaned_tile T margin seg)
  · have hadj : SegFlow.adjusted_tile T margin m seg a b
        = SegFlow.cleaned_tile T margin seg a b + m := by
      unfold SegFlow.adjusted_tile
      rw [if_pos hc]
    have hcne : SegFlow.cleaned_tile T margin seg a b ≠ 0 := (mem_tile_labels.mp hc).1
    have hc1 : 1 ≤ SegFlow.cleaned_tile T margin seg a b := cleaned_tile_pos hseg a b hcne
    have hne : (SegFlow.tile_labels T (SegFlow.cleaned_tile T margin seg)).Nonempty := ⟨_, hc⟩
    have h2 : (SegFlow.reduce_tile T margin m seg).2
        = SegFlow.array_max T (SegFlow.adjusted_tile T margin m seg) := by
      simp only [SegFlow.reduce_tile]
      rw [if_pos hne]
    have hle := le_array_max (SegFlow.adjusted_tile T margin m seg) ha hb
    constructor
    · omega
    · rw [h2]
      omega
  · exfalso
    apply h0
    rw [← hg2]
    unfold SegFlow.adjusted_tile
    rw [if_neg hc]

theorem reduce_tile_offset_le (T margin : ℕ) (m : ℤ) (seg : SegFlow.LabelGrid)
    (hseg : ∀ p q, 0 ≤ seg p q) :
    m ≤ (SegFlow.reduce_tile T margin m seg).2 := by
  by_cases hne : (SegFlow.tile_labels T (SegFlow.cleaned_tile T margin seg)).Nonempty
  · obtain ⟨c, hc⟩ := hne
    obtain ⟨hc0, a, b, ha, hb, hcv⟩ := mem_tile_labels.mp hc
    have hc1 : 1 ≤ SegFlow.cleaned_tile T margin seg a b :=
      cleaned_tile_pos hseg a b (by rw [hcv]; exact hc0)
    have hadj : SegFlow.adjusted_tile T margin m seg a b
        = SegFlow.cleaned_tile T margin seg a b + m := by
      unfold SegFlow.adjusted_tile
      rw [if_pos (by rw [hcv]; exact hc)]
    have hle := le_array_max (SegFlow.adjusted_tile T margin m seg) ha hb
    have h2 : (SegFlow.reduce_tile T margin m seg).2
        = SegFlow.array_max T (SegFlow.adjusted_tile T margin m seg) := by
      simp only [SegFlow.reduce_tile]
      rw [if_pos ⟨c, hc⟩]
    rw [h2]
    omega
  · simp only [SegFlow.reduce_tile]
    rw [if_neg hne]

theorem reduce_list_offset_le (T : ℕ) :
    ∀ (segs : List SegFlow.LabelGrid) (m : ℤ),
      (∀ s ∈ segs, ∀ p q, 0 ≤ s p q) →
      m ≤ (SegFlow.calculate_high_confidence_tiles T m segs).2
  | [], m, _ => le_refl m
  | s :: rest, m, hseg => by
      have h1 := reduce_tile_offset_le T (T / 8) m s (hseg s (List.mem_cons_self s rest))
      have h2 := reduce_list_offset_le T rest ((SegFlow.reduce_tile T (T / 8) m s).2)
        (fun t ht => hseg t (List.mem_cons_of_mem s ht))
      simp only [SegFlow.calculate_high_confidence_tiles]
      omega

theorem reduce_list_labels_gt (T : ℕ) :
    ∀ (segs : List SegFlow.LabelGrid) (m : ℤ) (i : ℕ) (l : ℤ),
      (∀ s ∈ segs, ∀ p q, 0 ≤ s p q) →
      l ∈ SegFlow.tile_labels T
        ((SegFlow.calculate_high_confidence_tiles T m segs).1.getD i SegFlow.zeroGrid) →
      m < l
  | [], m, i, l, _, hl => by
      rw [show (SegFlow.calculate_high_confidence_tiles T m []).1 = [] from rfl,
        List.getD_nil, tile_labels_zeroGrid] at hl
      exact absurd hl (Finset.not_mem_empty l)
  | s :: rest, m, 0, l, hseg, hl => by
      simp only [SegFlow.calculate_high_confidence_tiles, List.getD_cons_zero] at hl
      exact (reduce_tile_label_bounds T (T / 8) m s
        (hseg s (List.mem_cons_self s rest)) hl).1
  | s :: rest, m, k + 1, l, hseg, hl => by
      simp only [SegFlow.calculate_high_confidence_tiles, List.getD_cons_succ] at hl
      have hgt := reduce_list_labels_gt T rest ((SegFlow.reduce_tile T (T / 8) m s).2) k l
        (fun t ht => hseg t (List.mem_cons_of_mem s ht)) hl
      have hm := reduce_tile_offset_le T (T / 8) m s (hseg s (List.mem_cons_self s rest))
      omega

theorem reduce_list_disjoint (T : ℕ) :
    ∀ (segs : List SegFlow.LabelGrid) (m : ℤ) (i j : ℕ),
      (∀ s ∈ segs, ∀ p q, 0 ≤ s p q) → i < j →
      Disjoint
        (SegFlow.tile_labels T
          ((SegFlow.calculate_high_confidence_tiles T m segs).1.getD i SegFlow.zeroGrid))
        (SegFlow.tile_labels T
          ((SegFlow.calculate_high_confidence_tiles T m segs).1.getD j SegFlow.zeroGrid))
  | [], m, i, j, _, _ => by
      rw [show (SegFlow.calculate_high_confidence_tiles T m []).1 = [] from rfl]
      rw [List.getD_nil, List.getD_nil, tile_labels_zeroGrid]
      exact Finset.disjoint_empty_left _
  | s :: rest, m, i, 0, _, hij => absurd hij (by omega)
  | s :: rest, m, 0, k + 1, hseg, _ => by
      rw [Finset.disjoint_left]
      intro a hai haj
      simp only [SegFlow.calculate_high_confidence_tiles, List.getD_cons_zero] at hai
      simp only [SegFlow.calculate_high_confidence_tiles, List.getD_cons_succ] at haj
      have hub := (reduce_tile_label_bounds T (T / 8) m s
        (hseg s (List.mem_cons_self s rest)) hai).2
      have hlb := reduce_list_labels_gt T rest ((SegFlow.reduce_tile T (T / 8) m s).2) k a
        (fun t ht => hseg t (List.mem_cons_of_mem s ht)) haj
      omega
  | s :: rest, m, i + 1, k + 1, hseg, hij => by
      simp only [SegFlow.calculate_high_confidence_tiles, List.getD_cons_succ]
      exact reduce_list_disjoint T rest ((SegFlow.reduce_tile T (T / 8) m s).2) i k
        (fun t ht => hseg t (List.mem_cons_of_mem s ht)) (by omega)

theorem calc_offset_append (T : ℕ) :
    ∀ (l1 l2 : List SegFlow.LabelGrid) (m : ℤ),
      (SegFlow.calculate_high_confidence_tiles T m (l1 ++ l2)).2
        = (SegFlow.calculate_high_confidence_tiles T
            (SegFlow.calculate_high_confidence_tiles T m l1).2 l2).2
  | [], l2, m => rfl
  | s :: rest, l2, m => by
      simp only [List.cons_append, SegFlow.calculate_high_confidence_tiles]
      exact calc_offset_append T rest l2 _

/-- C4. After Confidence Reduction (initial offset 0) over any sequence of
label tiles (labels non-negative, 0 = background), no two distinct confidence
tiles share a non-zero instance id, and the running relabeling offset is
non-decreasing from tile to tile. -/
theorem c4_label_uniqueness (T : ℕ) (segs : List SegFlow.LabelGrid)
    (hseg : ∀ s ∈ segs, ∀ p q, 0 ≤ s p q) :
    (∀ i j : ℕ, i ≠ j →
      Disjoint
        (SegFlow.tile_labels T
          ((SegFlow.calculate_high_confidence_tiles T 0 segs).1.getD i SegFlow.zeroGrid))
        (SegFlow.tile_labels T
          ((SegFlow.calculate_high_confidence_tiles T 0 segs).1.getD j SegFlow.zeroGrid))) ∧
    (∀ k : ℕ,
      (SegFlow.calculate_high_confidence_tiles T 0 (segs.take k)).2
        ≤ (SegFlow.calculate_high_confidence_tiles T 0 (segs.take (k + 1))).2) := by
  constructor
  · intro i j hij
    rcases lt_or_gt_of_ne hij with h | h
    · exact reduce_list_disjoint T segs 0 i j hseg h
    · exact (reduce_list_disjoint T segs 0 j i hseg h).symm
  · intro k
    rw [List.take_succ, calc_offset_append]
    apply reduce_list_offset_le
    intro t ht
    rw [Option.mem_toList] at ht
    exact hseg t (List.getElem?_mem ht)

/-- C4, witness: two concrete all-ones 8×8 tiles; their confidence tiles get
disjoint label sets and the offset does not decrease from tile 1 to tile 2. -/
theorem c4_label_uniqueness_witness :
    Disjoint
      (SegFlow.tile_labels 8
        ((SegFlow.calculate_high_confidence_tiles 8 0 SegFlow.segsW).1.getD 0 SegFlow.zeroGrid))
      (SegFlow.tile_labels 8
        ((SegFlow.calculate_high_confidence_tiles 8 0 SegFlow.segsW).1.getD 1 SegFlow.zeroGrid)) ∧
    (SegFlow.calculate_high_confidence_tiles 8 0 (SegFlow.segsW.take 1)).2
      ≤ (SegFlow.calculate_high_confidence_tiles 8 0 (SegFlow.segsW.take 2)).2 := by
  have hseg : ∀ s ∈ SegFlow.segsW, ∀ p q : ℕ, 0 ≤ s p q := by
    intro s hs p q
    rcases List.mem_cons.mp hs with h | h
    · subst h
      norm_num [SegFlow.tieTileA]
    · rcases List.mem_cons.mp h with h2 | h2
      · subst h2
        norm_num [SegFlow.tieTileA]
      · exact absurd h2 (List.not_mem_nil s)
  exact ⟨(c4_label_uniqueness 8 SegFlow.segsW hseg).1 0 1 (by decide),
    (c4_label_uniqueness 8 SegFlow.segsW hseg).2 1⟩

/-- C9 (code bug evaluation). Cropping a 4×4 raster with `pad_top = 1`,
`pad_bottom = 1`, `pad_left = 1`, `pad_right = 0`: the contract requires a
2×3 result (pre-pad dimensions), but `_crop_padded` returns a raster of
width 0 — the `pad_right == 0` special case re-slices the already-emptied
intermediate result instead of the original raster. -/
theorem c9_crop_zero_pad_right_wrong_size :
    (SegFlow.crop_padded 1 1 1 0 SegFlow.img9).H = 2 ∧
    (SegFlow.crop_padded 1 1 1 0 SegFlow.img9).W = 0 ∧
    (0 : ℕ) ≠ 4 - 1 - 0 := by
  refine ⟨by decide, by decide, by decide⟩

/-- C10. For every segmentation raster containing at least one positive
(instance) label, `_calculate_area` raises `NameError`: its loop body
references the undefined names `labeled_image` and `label`, and the loop is
entered whenever any region exists. -/
theorem c10_area_namerror (H W : ℕ) (img : SegFlow.LabelGrid)
    (h : ∃ p q, p < H ∧ q < W ∧ 0 < img p q) :
    SegFlow.calculate_area H W img = Except.error "NameError" := by
  obtain ⟨p, q, hp, hq, hpos⟩ := h
  have hmem : img p q ∈ SegFlow.region_labels H W img := by
    unfold SegFlow.region_labels
    rw [Finset.mem_filter]
    exact ⟨Finset.mem_image.mpr ⟨(p, q),
      Finset.mem_product.mpr ⟨Finset.mem_range.mpr hp, Finset.mem_range.mpr hq⟩, rfl⟩,
      hpos⟩
  unfold SegFlow.calculate_area
  rcases hL : (SegFlow.region_labels H W img).sort (fun a b => a ≤ b) with _ | ⟨l, rest⟩
  · exfalso
    have hins : img p q ∈ (SegFlow.region_labels H W img).sort (fun a b => a ≤ b) :=
      (Finset.mem_sort _).mpr hmem
    rw [hL] at hins
    exact absurd hins (List.not_mem_nil _)
  · have hlmem : l ∈ (SegFlow.region_labels H W img).sort (fun a b => a ≤ b) := by
      rw [hL]
      exact List.mem_cons_self l rest
    have hls : l ∈ SegFlow.region_labels H W img := (Finset.mem_sort _).mp hlmem
    have hlpos : 0 < l := (Finset.mem_filter.mp hls).2
    simp only [SegFlow.area_loop]
    rw [if_pos (by omega)]

/-- C10, witness: a 1×1 all-ones segmentation makes the area computation
raise `NameError`. -/
theorem c10_area_namerror_witness :
    SegFlow.calculate_area 1 1 SegFlow.tieTileA = Except.error "NameError" :=
  c10_area_namerror 1 1 SegFlow.tieTileA ⟨0, 0, by decide, by decide, by decide⟩

/-! ### Hann window lemmas -/

theorem hanning_three_zero : SegFlow.hanning 3 0 = 0 := by
  unfold SegFlow.hanning
  rw [if_neg (by norm_num)]
  norm_num

theorem hanning_three_one : SegFlow.hanning 3 1 = 1 := by
  unfold SegFlow.hanning
  rw [if_neg (by norm_num)]
  push_cast
  have h : 2 * Real.pi * 1 / ((3 : ℝ) - 1) = Real.pi := by ring
  rw [h, Real.cos_pi]
  norm_num

theorem hanning_three_two : SegFlow.hanning 3 2 = 0 := by
  unfold SegFlow.hanning
  rw [if_neg (by norm_num)]
  push_cast
  have h : 2 * Real.pi * 2 / ((3 : ℝ) - 1) = 2 * Real.pi := by ring
  rw [h, Real.cos_two_pi]
  norm_num

theorem window_max_three : SegFlow.window_max 3 = 1 := by
  unfold SegFlow.window_max
  rw [show List.range 3 = [0, 1, 2] from by rfl]
  simp only [List.map_cons, List.map_nil, List.foldr_cons, List.foldr_nil,
    hanning_three_zero, hanning_three_one, hanning_three_two,
    mul_zero, zero_mul, mul_one, one_mul, max_self]
  norm_num [max_def]

theorem const_reconstructed (T : ℕ) (c : ℝ) (positions : List (ℕ × ℕ)) (p q : ℕ) :
    SegFlow.reconstructed_at T (SegFlow.const_tiles c positions) p q
      = c * SegFlow.weight_at T positions p q := by
  induction positions with
  | nil => simp [SegFlow.reconstructed_at, SegFlow.const_tiles, SegFlow.weight_at]
  | cons a rest ih =>
      have h1 : SegFlow.reconstructed_at T (SegFlow.const_tiles c (a :: rest)) p q
          = (if a.1 ≤ p ∧ p < a.1 + T ∧ a.2 ≤ q ∧ q < a.2 + T then
                c * SegFlow.window T (p - a.1) (q - a.2)
              else 0)
            + SegFlow.reconstructed_at T (SegFlow.const_tiles c rest) p q := by
        simp [SegFlow.reconstructed_at, SegFlow.const_tiles]
      have h2 : SegFlow.weight_at T (a :: rest) p q
          = (if a.1 ≤ p ∧ p < a.1 + T ∧ a.2 ≤ q ∧ q < a.2 + T then
                SegFlow.window T (p - a.1) (q - a.2)
              else 0)
            + SegFlow.weight_at T rest p q := by
        simp [SegFlow.weight_at]
      rw [h1, h2, ih, mul_add]
      congr 1
      split_ifs with hc
      · rfl
      · ring

/-- C8 (counterexample). A constant 1×1 image of value 1, stitched through
the blending path with `tile_size = 3`, `stride = 2` (padded size 5, grid
positions 0 and 2, crop offset 2): the cropped output pixel `(0,0)` has
accumulated weight 0 (the Hann window of length 3 vanishes at offsets 0 and
2), so the division guard leaves it at 0 instead of 1. -/
theorem c8_constant_blend_not_constant :
    SegFlow.combine_const_cropped 1 3 2 1 0 0 = 0 ∧ (0 : ℝ) ≠ 1 := by
  constructor
  · unfold SegFlow.combine_const_cropped
    have e1 : (1 : ℕ) + SegFlow.pad_total_n 3 2 1 = 5 := by decide
    have e2 : SegFlow.pad_top_n 3 2 1 + 0 = 2 := by decide
    rw [e1, e2]
    have e3 : SegFlow.positions2d 5 5 3 2 = [(0, 0), (0, 2), (2, 0), (2, 2)] := by decide
    rw [e3]
    have hw : SegFlow.weight_at 3 [(0, 0), (0, 2), (2, 0), (2, 2)] 2 2 = 0 := by
      unfold SegFlow.weight_at
      simp only [List.map_cons, List.map_nil, List.sum_cons, List.sum_nil]
      norm_num [SegFlow.window, hanning_three_zero, hanning_three_two, window_max_three]
    have hmap : (SegFlow.const_tiles (1 : ℝ) [(0, 0), (0, 2), (2, 0), (2, 2)]).map
        (fun tp => tp.2) = [(0, 0), (0, 2), (2, 0), (2, 2)] := by
      simp [SegFlow.const_tiles]
    unfold SegFlow.combined_at
    rw [hmap, hw, const_reconstructed, hw]
    norm_num
  · norm_num

/-- C8 (amended). Stitching the overlapping tiles of a constant-valued
continuous image through the blending path reconstructs the constant exactly
at every pixel whose accumulated window weight is non-zero; pixels with zero
accumulated weight come out as 0 instead (and such pixels can survive the
crop, as the counterexample shows). -/
theorem c8_const_blend (T : ℕ) (positions : List (ℕ × ℕ)) (c : ℝ) (p q : ℕ)
    (h : SegFlow.weight_at T positions p q ≠ 0) :
    SegFlow.combined_at T (SegFlow.const_tiles c positions) p q = c := by
  have hmap : (SegFlow.const_tiles c positions).map (fun tp => tp.2) = positions := by
    simp [SegFlow.const_tiles]
  unfold SegFlow.combined_at
  rw [hmap, if_neg h, const_reconstructed]
  exact mul_div_cancel_right₀ c h

theorem window_three_one_one : SegFlow.window 3 1 1 = 1 := by
  unfold SegFlow.window
  rw [hanning_three_one, window_max_three]
  norm_num

theorem weight_single_tile : SegFlow.weight_at 3 [(0, 0)] 1 1 = 1 := by
  unfold SegFlow.weight_at
  simp only [List.map_cons, List.map_nil, List.sum_cons, List.sum_nil]
  norm_num [window_three_one_one]

/-- C8 amended, witness: one tile of the constant image 2 at position
`(0,0)`, pixel `(1,1)` has weight 1 ≠ 0 and blends to exactly 2. -/
theorem c8_const_blend_witness :
    SegFlow.weight_at 3 [(0, 0)] 1 1 ≠ 0 ∧
    SegFlow.combined_at 3 (SegFlow.const_tiles 2 [(0, 0)]) 1 1 = 2 := by
  have hw : SegFlow.weight_at 3 [(0, 0)] 1 1 ≠ 0 := by
    rw [weight_single_tile]
    norm_num
  exact ⟨hw, c8_const_blend 3 [(0, 0)] 2 1 1 hw⟩
